import Mathlib

/-
Shallow embedding of the PDF downloader (src/PDF_Downloader.py) and proofs
about its behavior.

Modelling conventions:
* A pandas cell is `Cell`: either missing (`na`, i.e. NaN) or a string.
* Identifiers (the BRnum index values) are strings.
* The network is a parameter `net : Cell -> FetchResult`; `requests.get`
  outcomes are `success` (2xx with content), `requestError`
  (requests.exceptions.RequestException, which includes the non-2xx
  HTTPError raised by raise_for_status) or `otherError` (any other
  exception).
* Filesystem writes performed by a worker are recorded as a list of
  `FsOp` operations, in program order.
* The mutable `download_errors` list is modelled by returning the entries
  a worker appends (identifier first, then the reason string), in order.
-/

namespace PDFDownloader

/-- Constants from the top of PDF_Downloader.py. -/
def ID_COLUMN : String := "BRnum"

def MAX_DOWNLOADS : Nat := 10

def MAX_CONCURRENT_THREADS : Nat := 5

def DOWNLOAD_DIR : String := "Data/Downloads"

/-- A pandas cell: NaN or a string value. -/
inductive Cell where
  | na : Cell
  | str : String → Cell
deriving DecidableEq

/-- pd.notna: true for any non-NaN value (an empty string is notna). -/
def Cell.notna : Cell → Bool
  | Cell.na => false
  | Cell.str _ => true

/-- A source-table row as consumed by download_file: the two candidate URL
columns, in priority order. -/
structure Row where
  pdfUrl : Cell
  htmlUrl : Cell
deriving DecidableEq

/-- The ordered candidate list of a row: Pdf_URL first, then
Report Html Address. -/
def Row.candidates (r : Row) : List Cell := [r.pdfUrl, r.htmlUrl]

/-- URL selection in download_file (lines 76-81): prefer Pdf_URL when it is
notna, otherwise use Report Html Address. -/
def selectUrl (row : Row) : Cell :=
  if row.pdfUrl.notna then row.pdfUrl else row.htmlUrl

/-- Result of one requests.get call. -/
inductive FetchResult where
  | success (content : String)
  | requestError (msg : String)
  | otherError (msg : String)
deriving DecidableEq

/-- One HTTP request issued by a worker, with its keyword arguments
(timeout=30, verify=False). -/
structure FetchAttempt where
  url : Cell
  timeout : Nat
  verify : Bool
deriving DecidableEq

/-- A filesystem mutation performed by a worker. -/
inductive FsOp where
  | write (path : String) (content : String)
  | rename (src dst : String)
deriving DecidableEq

/-- Whether a filesystem operation is a rename. -/
def FsOp.isRename : FsOp → Bool
  | FsOp.rename _ _ => true
  | _ => false

/-- Everything observable that one download_file call does. -/
structure WorkerResult where
  attempts : List FetchAttempt
  fsOps : List FsOp
  errors : List String
  success : Bool
deriving DecidableEq

/-- os.path.join for our purposes. -/
def joinPath (dir file : String) : String := dir ++ "/" ++ file

/-- Error message prefix of the RequestException branch (line 98). -/
def networkErrorMsg (e : String) : String := "Network error: " ++ e

/-- Error message prefix of the generic except branch (line 104). -/
def unexpectedErrorMsg (e : String) : String := "Unexpected error: " ++ e

/-- PDF_Downloader.download_file (lines 70-113): pick the URL, issue exactly
one requests.get with timeout 30 and verify=False, write the content to
downloadDir/{index}.pdf on success, and on failure append the index and then
the error message to download_errors. -/
def download_file (downloadDir : String) (index : String) (row : Row)
    (net : Cell → FetchResult) : WorkerResult :=
  let url := selectUrl row
  let attempt : FetchAttempt := ⟨url, 30, false⟩
  match net url with
  | FetchResult.success content =>
      { attempts := [attempt]
        fsOps := [FsOp.write (joinPath downloadDir (index ++ ".pdf")) content]
        errors := []
        success := true }
  | FetchResult.requestError e =>
      { attempts := [attempt]
        fsOps := []
        errors := [index, networkErrorMsg e]
        success := false }
  | FetchResult.otherError e =>
      { attempts := [attempt]
        fsOps := []
        errors := [index, unexpectedErrorMsg e]
        success := false }

/-- Presence in the sense of the specification text (section 4.2): a
candidate is present when it is non-null AND non-empty. Used only to state
claims about candidate selection; the code's own test is `Cell.notna`. -/
def specPresent : Cell → Bool
  | Cell.na => false
  | Cell.str s => !(s == "")

/-- Position of the first occurrence of a in a list (Python list.index);
callers guard with membership, so the value on an absent element is
irrelevant. -/
def firstIdx (a : String) : List String → Nat
  | [] => 0
  | x :: xs => if x = a then 0 else firstIdx a xs + 1

/-- Error-message lookup of create_output_report (lines 174-180): error_msg
starts as the empty string; if the index occurs in download_errors, take the
element right after its first occurrence when that position is in bounds;
if the index does not occur at all, report "File not found". -/
def errorMessageFor (download_errors : List String) (index : String) : String :=
  if index ∈ download_errors then
    if firstIdx index download_errors + 1 < download_errors.length then
      download_errors.getD (firstIdx index download_errors + 1) ""
    else ""
  else "File not found"

/-- One row of the Download_Status table: Brnum, Status, Error Message. -/
structure StatusRecord where
  brnum : String
  status : String
  errorMessage : String
deriving DecidableEq

/-- The record create_output_report appends for one queue item (lines
168-181): Downloaded with empty message when downloadDir/{index}.pdf
exists, otherwise Failed with the looked-up error message. -/
def statusRecordFor (fileExists : Bool) (download_errors : List String)
    (index : String) : StatusRecord :=
  if fileExists then ⟨index, "Downloaded", ""⟩
  else ⟨index, "Failed", errorMessageFor download_errors index⟩

/-- The list of new report rows built by create_output_report: one record
per row of the download queue, in queue order. `filePresent` abstracts
os.path.exists on downloadDir/{id}.pdf at reporting time. -/
def buildOutputRows (queueIds : List String) (filePresent : String → Bool)
    (download_errors : List String) : List StatusRecord :=
  queueIds.map (fun i => statusRecordFor (filePresent i) download_errors i)

/-- pandas drop_duplicates(subset=key, keep="last") composed after a
concat: keeps, in order, each row whose key does not occur again later. -/
def dedupKeepLast {α κ : Type} [DecidableEq κ] (key : α → κ) :
    List α → List α
  | [] => []
  | x :: xs =>
      if key x ∈ xs.map key then dedupKeepLast key xs
      else x :: dedupKeepLast key xs

/-- The report merge of create_output_report (lines 196-198): concat the
existing table with the new rows, then drop duplicate Brnum keys keeping
the last occurrence. -/
def mergeReport (existing newRows : List StatusRecord) : List StatusRecord :=
  dedupKeepLast StatusRecord.brnum (existing ++ newRows)

/-- Per-item outcome in the sense of the specification (section 3). -/
inductive Outcome where
  | success : Outcome
  | failure (reason : String) : Outcome
deriving DecidableEq

/-- The flat download_errors list an outcome list denotes: each failure
contributes its identifier followed by its reason; successes contribute
nothing (download_file appends only on failure). -/
def flattenFailures (outcomes : List (String × Outcome)) : List String :=
  outcomes.flatMap (fun p =>
    match p.2 with
    | Outcome.success => []
    | Outcome.failure r => [p.1, r])

/-- Outcome lookup by identifier (first match). -/
def lookupOutcome (outcomes : List (String × Outcome)) (id : String) :
    Option Outcome :=
  (outcomes.find? (fun p => p.1 == id)).map Prod.snd

/-- Status Reporter record as described by the specification, section 4.5:
Downloaded when the identifier is in the scan result or its outcome is
Success; otherwise Failed with the failure reason, defaulting to
"File not found" when no outcome exists. -/
def specBuildRecord (scanResult : List String)
    (outcomes : List (String × Outcome)) (id : String) : StatusRecord :=
  if id ∈ scanResult ∨ lookupOutcome outcomes id = some Outcome.success then
    ⟨id, "Downloaded", ""⟩
  else
    match lookupOutcome outcomes id with
    | some (Outcome.failure r) => ⟨id, "Failed", r⟩
    | _ => ⟨id, "Failed", "File not found"⟩

/-- Name of the download-flag column used by update_metadata. -/
def PDF_DOWNLOADED : String := "pdf_downloaded"

/-- One metadata row, as the dict built by update_metadata: association
list from column name to cell value, in insertion order. -/
abbrev MetaRecord := List (String × Cell)

/-- The new metadata record update_metadata builds for one attempted id
(lines 234-248): BRnum and pdf_downloaded first, then every source-table
column that already exists in the metadata table and is not one of those
two, with the value taken from the source row when the id is in the source
index. -/
def newMetaRecord (metadataCols reportCols reportIndex : List String)
    (getCell : String → String → Cell) (downloadedFiles : List String)
    (reportId : String) : MetaRecord :=
  let status := if reportId ∈ downloadedFiles then Cell.str "Yes"
                else Cell.str "No"
  let base : MetaRecord :=
    [(ID_COLUMN, Cell.str reportId), (PDF_DOWNLOADED, status)]
  if reportId ∈ reportIndex then
    base ++ (reportCols.filter (fun c =>
        decide (c ∈ metadataCols ∧ c ∉ [ID_COLUMN, PDF_DOWNLOADED]))).map
      (fun c => (c, getCell reportId c))
  else base

/-- The BRnum key of a metadata row, used by drop_duplicates on line 264. -/
def recKey (r : MetaRecord) : Cell :=
  ((r.find? (fun p => p.1 == ID_COLUMN)).map Prod.snd).getD Cell.na

/-- The row-level result of update_metadata (lines 234-264): build one new
record per download-queue id, append them to the loaded metadata rows, then
drop duplicate BRnum keys keeping the last occurrence. -/
def update_metadata_rows (metadata : List MetaRecord) (queueIds : List String)
    (metadataCols reportCols reportIndex : List String)
    (getCell : String → String → Cell) (downloadedFiles : List String) :
    List MetaRecord :=
  dedupKeepLast recKey
    (metadata ++ queueIds.map
      (newMetaRecord metadataCols reportCols reportIndex getCell
        downloadedFiles))

/-- Order-preserving union of column lists, as pd.concat aligns columns. -/
def listUnion (a b : List String) : List String :=
  a ++ b.filter (fun c => decide (c ∉ a))

/-- Column names of a metadata row. -/
def dictKeys (r : MetaRecord) : List String := r.map Prod.fst

/-- Columns of the DataFrame built from the new records: union of the
records' keys. -/
def newDataColumns (records : List MetaRecord) : List String :=
  records.foldl (fun acc r => listUnion acc (dictKeys r)) []

/-- Columns of the updated ledger after pd.concat on line 260: the loaded
metadata columns together with any new columns of the new records. -/
def update_metadata_columns (metadataCols : List String)
    (records : List MetaRecord) : List String :=
  listUnion metadataCols (newDataColumns records)

/-- The valid-URL filter of run (line 408): Pdf_URL notna or
Report Html Address notna. -/
def hasValidUrl (r : Row) : Bool := r.pdfUrl.notna || r.htmlUrl.notna

/-- The download queue built by run (lines 406-428): keep rows with a valid
URL, drop ids already downloaded, cap at max_downloads. -/
def downloadQueue (table : List (String × Row)) (existing : List String)
    (maxD : Nat) : List (String × Row) :=
  (((table.filter (fun p => hasValidUrl p.2)).filter
      (fun p => decide (p.1 ∉ existing))).take maxD)

/-- The new status rows one run produces (run composed with
create_output_report): run every queued item through download_file,
concatenate the appended error entries, and report each queued id against
the files present afterwards (a file is present when it existed before the
run or its worker succeeded). -/
def runNewReportRows (table : List (String × Row)) (existing : List String)
    (maxD : Nat) (net : Cell → FetchResult) : List StatusRecord :=
  let queue := downloadQueue table existing maxD
  let results := queue.map (fun p => (p.1, download_file DOWNLOAD_DIR p.1 p.2 net))
  let errors := (results.map (fun r => r.2.errors)).flatten
  let present := fun i =>
    decide (i ∈ existing) || results.any (fun r => r.1 == i && r.2.success)
  buildOutputRows (queue.map Prod.fst) present errors

/-- The full status report one run persists: the new rows merged with the
prior report table. -/
def runReportRows (table : List (String × Row)) (existing : List String)
    (maxD : Nat) (net : Cell → FetchResult)
    (priorReport : List StatusRecord) : List StatusRecord :=
  mergeReport priorReport (runNewReportRows table existing maxD net)

/-- State of the dispatcher loop of download_pdfs (lines 126-156):
how many queue items are not yet started, how many started threads are
still alive, and whether any item has been started yet. -/
structure DispatchState where
  pending : Nat
  running : Nat
  begun : Bool
deriving DecidableEq

/-- One interleaving step of download_pdfs with its worker threads.
A running worker may finish at any moment. The dispatcher starts the first
item unconditionally (the wait loop runs only after a start); it starts a
later item only once the wait loop has observed fewer alive threads than
max_concurrent_threads. -/
inductive DStep (limit : Int) : DispatchState → DispatchState → Prop
  | finish (s : DispatchState) (h : 0 < s.running) :
      DStep limit s ⟨s.pending, s.running - 1, s.begun⟩
  | start (s : DispatchState) (hp : 0 < s.pending)
      (hg : s.begun = false ∨ (s.running : Int) < limit) :
      DStep limit s ⟨s.pending - 1, s.running + 1, true⟩

/-- Reachability in the dispatcher transition system. -/
inductive DReachable (limit : Int) (init : DispatchState) :
    DispatchState → Prop
  | refl : DReachable limit init init
  | tail {s s' : DispatchState} (hr : DReachable limit init s)
      (hs : DStep limit s s') : DReachable limit init s'

lemma mem_of_mem_dedupKeepLast {α κ : Type} [DecidableEq κ] (key : α → κ)
    {a : α} {l : List α} (h : a ∈ dedupKeepLast key l) : a ∈ l := by
  induction l with
  | nil => simp [dedupKeepLast] at h
  | cons x xs ih =>
      by_cases hx : key x ∈ xs.map key
      · simp only [dedupKeepLast, if_pos hx] at h
        exact List.mem_cons_of_mem _ (ih h)
      · simp only [dedupKeepLast, if_neg hx] at h
        rcases List.mem_cons.mp h with h | h
        · exact h ▸ List.mem_cons_self x xs
        · exact List.mem_cons_of_mem _ (ih h)

lemma mem_map_key_dedupKeepLast {α κ : Type} [DecidableEq κ] (key : α → κ)
    (l : List α) (k : κ) :
    k ∈ (dedupKeepLast key l).map key ↔ k ∈ l.map key := by
  induction l with
  | nil => simp [dedupKeepLast]
  | cons x xs ih =>
      by_cases hx : key x ∈ xs.map key
      · simp only [dedupKeepLast, if_pos hx, List.map_cons, List.mem_cons]
        rw [ih]
        constructor
        · exact Or.inr
        · rintro (h | h)
          · exact h ▸ hx
          · exact h
      · simp only [dedupKeepLast, if_neg hx, List.map_cons, List.mem_cons, ih]

lemma nodup_map_key_dedupKeepLast {α κ : Type} [DecidableEq κ] (key : α → κ)
    (l : List α) : ((dedupKeepLast key l).map key).Nodup := by
  induction l with
  | nil => simp [dedupKeepLast]
  | cons x xs ih =>
      by_cases hx : key x ∈ xs.map key
      · simpa only [dedupKeepLast, if_pos hx] using ih
      · simp only [dedupKeepLast, if_neg hx, List.map_cons]
        rw [List.nodup_cons]
        exact ⟨fun hmem => hx ((mem_map_key_dedupKeepLast key xs (key x)).mp hmem), ih⟩

lemma dedupKeepLast_idem {α κ : Type} [DecidableEq κ] (key : α → κ)
    (l : List α) : dedupKeepLast key (dedupKeepLast key l) = dedupKeepLast key l := by
  induction l with
  | nil => simp [dedupKeepLast]
  | cons x xs ih =>
      by_cases hx : key x ∈ xs.map key
      · simp only [dedupKeepLast, if_pos hx]
        exact ih
      · have hx' : key x ∉ (dedupKeepLast key xs).map key := fun hmem =>
          hx ((mem_map_key_dedupKeepLast key xs (key x)).mp hmem)
        simp only [dedupKeepLast, if_neg hx, if_neg hx']
        rw [ih]

lemma dedupKeepLast_append {α κ : Type} [DecidableEq κ] (key : α → κ)
    (A m : List α) :
    dedupKeepLast key (A ++ m) =
      (dedupKeepLast key A).filter (fun a => decide (key a ∉ m.map key)) ++
        dedupKeepLast key m := by
  induction A with
  | nil => simp [dedupKeepLast]
  | cons x A' ih =>
      by_cases hx : key x ∈ A'.map key
      · have hg : key x ∈ (A' ++ m).map key := by
          rw [List.map_append]
          exact List.mem_append_left _ hx
        rw [List.cons_append]
        simp only [dedupKeepLast, if_pos hg, if_pos hx]
        exact ih
      · by_cases hm : key x ∈ m.map key
        · have hg : key x ∈ (A' ++ m).map key := by
            rw [List.map_append]
            exact List.mem_append_right _ hm
          rw [List.cons_append]
          simp only [dedupKeepLast, if_pos hg, if_neg hx]
          rw [ih, List.filter_cons]
          simp [hm]
        · have hg : key x ∉ (A' ++ m).map key := by
            rw [List.map_append]
            intro hc
            rcases List.mem_append.mp hc with hc | hc
            · exact hx hc
            · exact hm hc
          rw [List.cons_append]
          simp only [dedupKeepLast, if_neg hg, if_neg hx]
          rw [ih, List.filter_cons, if_pos (by simp [hm])]
          simp

lemma filter_dedupKeepLast {α κ : Type} [DecidableEq κ] (key : α → κ)
    (l : List α) (k : κ) :
    (dedupKeepLast key l).filter (fun a => decide (key a = k)) =
      ((l.filter (fun a => decide (key a = k))).getLast?).toList := by
  induction l with
  | nil => simp [dedupKeepLast]
  | cons x xs ih =>
      by_cases hx : key x ∈ xs.map key
      · simp only [dedupKeepLast, if_pos hx]
        rw [ih, List.filter_cons]
        by_cases hk : key x = k
        · rw [if_pos (by simp [hk])]
          have hne : xs.filter (fun a => decide (key a = k)) ≠ [] := by
            rcases List.mem_map.mp hx with ⟨y, hy, hky⟩
            intro hnil
            have : y ∈ xs.filter (fun a => decide (key a = k)) :=
              List.mem_filter.mpr ⟨hy, by simp [hky, hk]⟩
            rw [hnil] at this
            exact List.not_mem_nil y this
          rcases List.exists_cons_of_ne_nil hne with ⟨c, cs, hcs⟩
          rw [hcs, List.getLast?_cons_cons]
        · simp [hk]
      · have hx' : ∀ a ∈ dedupKeepLast key xs, key a ≠ key x := by
          intro a ha
          intro he
          exact hx (List.mem_map.mpr
            ⟨a, mem_of_mem_dedupKeepLast key ha, he⟩)
        simp only [dedupKeepLast, if_neg hx]
        rw [List.filter_cons, List.filter_cons]
        by_cases hk : key x = k
        · have h1 : xs.filter (fun a => decide (key a = k)) = [] := by
            rw [List.filter_eq_nil_iff]
            intro a ha
            simp only [decide_eq_true_eq]
            intro he
            exact hx (List.mem_map.mpr ⟨a, ha, he.trans hk.symm⟩)
          have h2 : (dedupKeepLast key xs).filter
              (fun a => decide (key a = k)) = [] := by
            rw [List.filter_eq_nil_iff]
            intro a ha
            simp only [decide_eq_true_eq]
            intro he
            exact hx' a ha (he.trans hk.symm)
          simp [hk, h1, h2]
        · rw [if_neg (by simp [hk]), if_neg (by simp [hk])]
          exact ih

lemma filter_self_idem {α : Type} (p : α → Bool) (l : List α) :
    (l.filter p).filter p = l.filter p := by
  induction l with
  | nil => rfl
  | cons x xs ih =>
      by_cases hp : p x = true
      · rw [List.filter_cons, if_pos hp, List.filter_cons, if_pos hp, ih]
      · rw [List.filter_cons, if_neg hp, ih]

/-- C6: the Status Reporter merge (concat then drop duplicate Brnum keys
keeping the last) is key-unique and idempotent: the merged report has no
duplicate identifiers; for an identifier occurring among the new records,
exactly the newest matching record is kept; and merging the merged report
with the same new records again leaves it unchanged. -/
theorem C6_merge_idempotent (prior newRows : List StatusRecord) (id : String)
    (hid : id ∈ newRows.map StatusRecord.brnum) :
    ((mergeReport prior newRows).map StatusRecord.brnum).Nodup ∧
    (mergeReport prior newRows).filter (fun r => decide (r.brnum = id)) =
      ((newRows.filter (fun r => decide (r.brnum = id))).getLast?).toList ∧
    mergeReport (mergeReport prior newRows) newRows =
      mergeReport prior newRows := by
  refine ⟨nodup_map_key_dedupKeepLast _ _, ?_, ?_⟩
  · rw [mergeReport, filter_dedupKeepLast, List.filter_append]
    have hne : newRows.filter (fun r => decide (StatusRecord.brnum r = id)) ≠ [] := by
      rcases List.mem_map.mp hid with ⟨r, hrm, hkr⟩
      intro hnil
      have hrf : r ∈ newRows.filter (fun r => decide (r.brnum = id)) :=
        List.mem_filter.mpr ⟨hrm, by simp [hkr]⟩
      rw [hnil] at hrf
      exact List.not_mem_nil r hrf
    rw [List.getLast?_append_of_ne_nil _ hne]
  · have hid1 := dedupKeepLast_append StatusRecord.brnum prior newRows
    have hid2 := dedupKeepLast_append StatusRecord.brnum
      (dedupKeepLast StatusRecord.brnum (prior ++ newRows)) newRows
    have hnil : (dedupKeepLast StatusRecord.brnum newRows).filter
        (fun a => decide (StatusRecord.brnum a ∉
          newRows.map StatusRecord.brnum)) = [] := by
      rw [List.filter_eq_nil_iff]
      intro a ha
      simp only [decide_eq_true_eq, not_not]
      exact List.mem_map.mpr ⟨a, mem_of_mem_dedupKeepLast _ ha, rfl⟩
    simp only [mergeReport]
    rw [hid2, dedupKeepLast_idem, hid1, List.filter_append, filter_self_idem,
      hnil, List.append_nil]

/-- Closed instantiation of C6_merge_idempotent. -/
theorem C6_merge_idempotent_witness :
    ((mergeReport [⟨"A", "Failed", "Network error: x"⟩]
        [⟨"A", "Downloaded", ""⟩]).map StatusRecord.brnum).Nodup ∧
    (mergeReport [⟨"A", "Failed", "Network error: x"⟩]
        [⟨"A", "Downloaded", ""⟩]).filter (fun r => decide (r.brnum = "A")) =
      (([(⟨"A", "Downloaded", ""⟩ : StatusRecord)].filter
        (fun r => decide (r.brnum = "A"))).getLast?).toList ∧
    mergeReport (mergeReport [⟨"A", "Failed", "Network error: x"⟩]
        [⟨"A", "Downloaded", ""⟩]) [⟨"A", "Downloaded", ""⟩] =
      mergeReport [⟨"A", "Failed", "Network error: x"⟩]
        [⟨"A", "Downloaded", ""⟩] :=
  C6_merge_idempotent [⟨"A", "Failed", "Network error: x"⟩]
    [⟨"A", "Downloaded", ""⟩] "A" (by decide)

lemma length_dedupKeepLast_append_ge {α κ : Type} [DecidableEq κ]
    (key : α → κ) (l₁ l₂ : List α) (h : (l₁.map key).Nodup) :
    l₁.length ≤ (dedupKeepLast key (l₁ ++ l₂)).length := by
  have hnd := nodup_map_key_dedupKeepLast key (l₁ ++ l₂)
  have hcard : ((dedupKeepLast key (l₁ ++ l₂)).map key).toFinset.card =
      ((dedupKeepLast key (l₁ ++ l₂)).map key).length :=
    List.toFinset_card_of_nodup hnd
  have hsub : (l₁.map key).toFinset ⊆
      ((dedupKeepLast key (l₁ ++ l₂)).map key).toFinset := by
    intro k hk
    rw [List.mem_toFinset] at hk ⊢
    rw [mem_map_key_dedupKeepLast, List.map_append]
    exact List.mem_append_left _ hk
  have h1 : (l₁.map key).toFinset.card = (l₁.map key).length :=
    List.toFinset_card_of_nodup h
  have h2 := Finset.card_le_card hsub
  rw [h1, hcard] at h2
  calc l₁.length = (l₁.map key).length := (List.length_map _ _).symm
    _ ≤ ((dedupKeepLast key (l₁ ++ l₂)).map key).length := h2
    _ = (dedupKeepLast key (l₁ ++ l₂)).length := List.length_map _ _

/-- C7: when the loaded metadata ledger has no duplicate BRnum keys, the
reconciled ledger (append the new per-run records, then drop duplicate
BRnum keys keeping the last) has at least as many rows as the ledger had
before the run. -/
theorem C7_ledger_never_shrinks (metadata : List MetaRecord)
    (queueIds metadataCols reportCols reportIndex : List String)
    (getCell : String → String → Cell) (downloadedFiles : List String)
    (h : (metadata.map recKey).Nodup) :
    metadata.length ≤
      (update_metadata_rows metadata queueIds metadataCols reportCols
        reportIndex getCell downloadedFiles).length :=
  length_dedupKeepLast_append_ge recKey metadata _ h

/-- Closed instantiation of C7_ledger_never_shrinks. -/
theorem C7_ledger_never_shrinks_witness :
    ([[(ID_COLUMN, Cell.str "A"), (PDF_DOWNLOADED, Cell.str "No")]] :
        List MetaRecord).length ≤
      (update_metadata_rows
        [[(ID_COLUMN, Cell.str "A"), (PDF_DOWNLOADED, Cell.str "No")]]
        ["A"] [ID_COLUMN, PDF_DOWNLOADED] [] [] (fun _ _ => Cell.na)
        ["A"]).length :=
  C7_ledger_never_shrinks
    [[(ID_COLUMN, Cell.str "A"), (PDF_DOWNLOADED, Cell.str "No")]]
    ["A"] [ID_COLUMN, PDF_DOWNLOADED] [] [] (fun _ _ => Cell.na) ["A"]
    (by decide)

lemma mem_listUnion {c : String} {a b : List String}
    (h : c ∈ listUnion a b) : c ∈ a ∨ c ∈ b := by
  rcases List.mem_append.mp h with h | h
  · exact Or.inl h
  · exact Or.inr (List.mem_filter.mp h).1

lemma mem_newDataColumns {c : String} {records : List MetaRecord}
    (h : c ∈ newDataColumns records) : ∃ r ∈ records, c ∈ dictKeys r := by
  have hgen : ∀ (recs : List MetaRecord) (acc : List String),
      c ∈ recs.foldl (fun acc r => listUnion acc (dictKeys r)) acc →
      c ∈ acc ∨ ∃ r ∈ recs, c ∈ dictKeys r := by
    intro recs
    induction recs with
    | nil => intro acc hc; exact Or.inl hc
    | cons r rs ih =>
        intro acc hc
        rcases ih (listUnion acc (dictKeys r)) hc with hc' | ⟨r', hr', hck⟩
        · rcases mem_listUnion hc' with hc'' | hc''
          · exact Or.inl hc''
          · exact Or.inr ⟨r, List.mem_cons_self r rs, hc''⟩
        · exact Or.inr ⟨r', List.mem_cons_of_mem _ hr', hck⟩
  rcases hgen records [] h with hc | hc
  · exact absurd hc (List.not_mem_nil c)
  · exact hc

lemma newMetaRecord_keys (metadataCols reportCols reportIndex : List String)
    (getCell : String → String → Cell) (downloadedFiles : List String)
    (reportId : String) {c : String}
    (hc : c ∈ dictKeys (newMetaRecord metadataCols reportCols reportIndex
      getCell downloadedFiles reportId)) :
    c = ID_COLUMN ∨ c = PDF_DOWNLOADED ∨
      (c ∈ metadataCols ∧ c ∈ reportCols) := by
  by_cases hr : reportId ∈ reportIndex
  · simp only [newMetaRecord, if_pos hr, dictKeys, List.map_append,
      List.map_map] at hc
    rcases List.mem_append.mp hc with hc | hc
    · simp only [List.map_cons, List.map_nil, List.mem_cons,
        List.not_mem_nil, or_false] at hc
      rcases hc with hc | hc
      · exact Or.inl hc
      · exact Or.inr (Or.inl hc)
    · rcases List.mem_map.mp hc with ⟨d, hd, hdc⟩
      have hd' := List.mem_filter.mp hd
      have hprop := of_decide_eq_true hd'.2
      refine Or.inr (Or.inr ?_)
      have hcc : c = d := by
        rw [← hdc]
        rfl
      rw [hcc]
      exact ⟨hprop.1, hd'.1⟩
  · simp only [newMetaRecord, if_neg hr, dictKeys, List.map_cons,
      List.map_nil, List.mem_cons, List.not_mem_nil, or_false] at hc
    rcases hc with hc | hc
    · exact Or.inl hc
    · exact Or.inr (Or.inl hc)

/-- C8: the reconciler copies a source-table column into a new record only
when that column already exists in the metadata ledger; consequently, for a
ledger that has its BRnum and pdf_downloaded columns, every column of the
updated ledger is a column the ledger already had. -/
theorem C8_schema_additive (queueIds metadataCols reportCols
      reportIndex : List String) (getCell : String → String → Cell)
    (downloadedFiles : List String)
    (hID : ID_COLUMN ∈ metadataCols) (hPD : PDF_DOWNLOADED ∈ metadataCols) :
    (∀ (rid : String), ∀ c ∈ dictKeys (newMetaRecord metadataCols reportCols
        reportIndex getCell downloadedFiles rid),
      c = ID_COLUMN ∨ c = PDF_DOWNLOADED ∨
        (c ∈ metadataCols ∧ c ∈ reportCols)) ∧
    (∀ c ∈ update_metadata_columns metadataCols
        (queueIds.map (newMetaRecord metadataCols reportCols reportIndex
          getCell downloadedFiles)), c ∈ metadataCols) := by
  constructor
  · intro rid c hc
    exact newMetaRecord_keys metadataCols reportCols reportIndex getCell
      downloadedFiles rid hc
  · intro c hc
    rcases mem_listUnion hc with hc | hc
    · exact hc
    · rcases mem_newDataColumns hc with ⟨r, hr, hck⟩
      rcases List.mem_map.mp hr with ⟨rid, _, hrid⟩
      rw [← hrid] at hck
      rcases newMetaRecord_keys metadataCols reportCols reportIndex getCell
          downloadedFiles rid hck with h | h | h
      · exact h ▸ hID
      · exact h ▸ hPD
      · exact h.1

/-- Closed instantiation of C8_schema_additive. -/
theorem C8_schema_additive_witness :
    (∀ (rid : String), ∀ c ∈ dictKeys (newMetaRecord
        [ID_COLUMN, PDF_DOWNLOADED, "Country"] ["Country", "Region"] ["A"]
        (fun _ _ => Cell.str "DK") ["A"] rid),
      c = ID_COLUMN ∨ c = PDF_DOWNLOADED ∨
        (c ∈ [ID_COLUMN, PDF_DOWNLOADED, "Country"] ∧
          c ∈ ["Country", "Region"])) ∧
    (∀ c ∈ update_metadata_columns [ID_COLUMN, PDF_DOWNLOADED, "Country"]
        (["A"].map (newMetaRecord [ID_COLUMN, PDF_DOWNLOADED, "Country"]
          ["Country", "Region"] ["A"] (fun _ _ => Cell.str "DK") ["A"])),
      c ∈ [ID_COLUMN, PDF_DOWNLOADED, "Country"]) :=
  C8_schema_additive ["A"] [ID_COLUMN, PDF_DOWNLOADED, "Country"]
    ["Country", "Region"] ["A"] (fun _ _ => Cell.str "DK") ["A"]
    (by decide) (by decide)

lemma errorMessageFor_not_mem {errs : List String} {id : String}
    (h : id ∉ errs) : errorMessageFor errs id = "File not found" := by
  simp [errorMessageFor, h]

lemma errorMessageFor_cons_ne {k id : String} (hk : k ≠ id)
    (t : List String) :
    errorMessageFor (k :: t) id = errorMessageFor t id := by
  by_cases hm : id ∈ t
  · have hm' : id ∈ k :: t := List.mem_cons_of_mem _ hm
    have hf : firstIdx id (k :: t) = firstIdx id t + 1 := by
      simp [firstIdx, hk]
    simp only [errorMessageFor, if_pos hm', if_pos hm, hf, List.length_cons]
    by_cases hlen : firstIdx id t + 1 < t.length
    · rw [if_pos (by omega), if_pos hlen]
      exact List.getD_cons_succ
    · rw [if_neg (by omega), if_neg hlen]
  · have hm' : id ∉ k :: t := by
      intro hx
      rcases List.mem_cons.mp hx with hx | hx
      · exact hk hx.symm
      · exact hm hx
    rw [errorMessageFor_not_mem hm', errorMessageFor_not_mem hm]

lemma errorMessageFor_first_occurrence (pre post : List String) (id : String)
    (h : id ∉ pre) :
    errorMessageFor (pre ++ id :: post) id = post.headD "" := by
  induction pre with
  | nil =>
      cases post with
      | nil => simp [errorMessageFor, firstIdx]
      | cons m t =>
          simp [errorMessageFor, firstIdx, List.getD_cons_succ]
  | cons k t ih =>
      have hk : k ≠ id := by
        intro he
        exact h (by simp [he])
      have ht : id ∉ t := fun hm => h (List.mem_cons_of_mem _ hm)
      rw [List.cons_append, errorMessageFor_cons_ne hk, ih ht]

lemma download_file_errors_on_requestError (dir idx : String) (row : Row)
    (net : Cell → FetchResult) (e : String)
    (h : net (selectUrl row) = FetchResult.requestError e) :
    (download_file dir idx row net).errors = [idx, networkErrorMsg e] := by
  simp [download_file, h]

/-- C10: failure outcomes are recorded positionally: a failing worker
appends its identifier and then the reason; the reporter takes the element
after the first occurrence of the identifier (empty string when that
occurrence is the final element), uses "File not found" only when the
identifier occurs nowhere, and a reason string equal to another item's
identifier is mistaken for that item's entry (concretely, with errors
["A", "B", "B", "Network error: refused"], item B's reported reason is
"B", the reason of item A, not its own "Network error: refused"). -/
theorem C10_positional_error_pairs :
    (∀ (dir idx : String) (row : Row) (net : Cell → FetchResult)
        (e : String),
        net (selectUrl row) = FetchResult.requestError e →
        (download_file dir idx row net).errors = [idx, networkErrorMsg e]) ∧
    (∀ (pre post : List String) (id : String), id ∉ pre →
        errorMessageFor (pre ++ id :: post) id = post.headD "") ∧
    (∀ (errs : List String) (id : String), id ∉ errs →
        errorMessageFor errs id = "File not found") ∧
    errorMessageFor ["A", "B", "B", networkErrorMsg "refused"] "B" = "B" := by
  refine ⟨download_file_errors_on_requestError,
    errorMessageFor_first_occurrence,
    fun errs id h => errorMessageFor_not_mem h, by decide⟩

/-- Closed instantiation of C10_positional_error_pairs. -/
theorem C10_positional_error_pairs_witness :
    errorMessageFor (["X9", "X7", "Network error: timeout"]) "X7" =
      "Network error: timeout" := by
  have h := C10_positional_error_pairs.2.1 ["X9"]
    ["Network error: timeout"] "X7" (by decide)
  simpa using h

lemma flattenFailures_cons_success (k : String)
    (rest : List (String × Outcome)) :
    flattenFailures ((k, Outcome.success) :: rest) = flattenFailures rest := by
  simp [flattenFailures]

lemma flattenFailures_cons_failure (k r : String)
    (rest : List (String × Outcome)) :
    flattenFailures ((k, Outcome.failure r) :: rest) =
      k :: r :: flattenFailures rest := by
  simp [flattenFailures]

lemma mem_flattenFailures {a : String} {ol : List (String × Outcome)} :
    a ∈ flattenFailures ol ↔
      ∃ p ∈ ol, ∃ r, p.2 = Outcome.failure r ∧ (a = p.1 ∨ a = r) := by
  induction ol with
  | nil => simp [flattenFailures]
  | cons p rest ih =>
      obtain ⟨k, o⟩ := p
      cases o with
      | success =>
          rw [flattenFailures_cons_success, ih]
          constructor
          · rintro ⟨p, hp, r, hpr, hor⟩
            exact ⟨p, List.mem_cons_of_mem _ hp, r, hpr, hor⟩
          · rintro ⟨p, hp, r, hpr, hor⟩
            rcases List.mem_cons.mp hp with hp | hp
            · rw [hp] at hpr
              simp at hpr
            · exact ⟨p, hp, r, hpr, hor⟩
      | failure r0 =>
          rw [flattenFailures_cons_failure]
          simp only [List.mem_cons, ih]
          constructor
          · rintro (h | h | ⟨p, hp, r, hpr, hor⟩)
            · exact ⟨(k, Outcome.failure r0), Or.inl rfl, r0, rfl, Or.inl h⟩
            · exact ⟨(k, Outcome.failure r0), Or.inl rfl, r0, rfl, Or.inr h⟩
            · exact ⟨p, Or.inr hp, r, hpr, hor⟩
          · rintro ⟨p, hp | hp, r, hpr, hor⟩
            · rw [hp] at hpr hor
              simp only at hpr
              injection hpr with hrr
              rcases hor with h | h
              · exact Or.inl h
              · exact Or.inr (Or.inl (h.trans hrr.symm))
            · exact Or.inr (Or.inr ⟨p, hp, r, hpr, hor⟩)

lemma lookupOutcome_cons_ne {k id : String} (hki : k ≠ id) (o : Outcome)
    (rest : List (String × Outcome)) :
    lookupOutcome ((k, o) :: rest) id = lookupOutcome rest id := by
  simp [lookupOutcome, List.find?_cons, hki]

lemma errorMessageFor_flatten (ol : List (String × Outcome)) (id : String)
    (hkeys : (ol.map Prod.fst).Nodup)
    (hr : ∀ p ∈ ol, ∀ r, p.2 = Outcome.failure r → r ≠ id) :
    errorMessageFor (flattenFailures ol) id =
      match lookupOutcome ol id with
      | some (Outcome.failure r) => r
      | _ => "File not found" := by
  induction ol with
  | nil => simp [flattenFailures, lookupOutcome, errorMessageFor]
  | cons p rest ih =>
      obtain ⟨k, o⟩ := p
      rw [List.map_cons, List.nodup_cons] at hkeys
      obtain ⟨hknot, hkeys'⟩ := hkeys
      have hr' : ∀ p ∈ rest, ∀ r, p.2 = Outcome.failure r → r ≠ id :=
        fun p hp r h => hr p (List.mem_cons_of_mem _ hp) r h
      by_cases hki : k = id
      · subst hki
        cases o with
        | success =>
            have hnm : k ∉ flattenFailures rest := by
              intro hm
              rcases mem_flattenFailures.mp hm with ⟨q, hq, r, hqr, hor⟩
              rcases hor with h | h
              · exact hknot (List.mem_map.mpr ⟨q, hq, h.symm⟩)
              · exact hr' q hq r hqr h.symm
            rw [flattenFailures_cons_success, errorMessageFor_not_mem hnm]
            simp [lookupOutcome, List.find?_cons]
        | failure r =>
            rw [flattenFailures_cons_failure]
            have h0 := errorMessageFor_first_occurrence []
              (r :: flattenFailures rest) k (List.not_mem_nil k)
            simp only [List.nil_append] at h0
            rw [h0]
            simp [lookupOutcome, List.find?_cons]
      · cases o with
        | success =>
            rw [flattenFailures_cons_success, lookupOutcome_cons_ne hki]
            exact ih hkeys' hr'
        | failure r =>
            have hrne : r ≠ id :=
              hr (k, Outcome.failure r) (List.mem_cons_self _ _) r rfl
            rw [flattenFailures_cons_failure, errorMessageFor_cons_ne hki,
              errorMessageFor_cons_ne hrne, lookupOutcome_cons_ne hki]
            exact ih hkeys' hr'

/-- C4: the per-item record of create_output_report matches the
specification's Status Reporter and is total on missing outcomes: with the
file-exists test equal to "identifier in scan result or outcome is
Success", the record is Downloaded with empty message exactly in that case,
otherwise Failed with the reason of the matching Failure outcome, and
Failed with "File not found" when no outcome exists for the identifier. -/
theorem C4_report_matches_spec (scanResult : List String)
    (ol : List (String × Outcome)) (id : String) (present : Bool)
    (hkeys : (ol.map Prod.fst).Nodup)
    (hr : ∀ p ∈ ol, ∀ r, p.2 = Outcome.failure r → r ≠ id)
    (hp : present = (decide (id ∈ scanResult) ||
      decide (lookupOutcome ol id = some Outcome.success))) :
    statusRecordFor present (flattenFailures ol) id =
      specBuildRecord scanResult ol id := by
  subst hp
  by_cases hd : id ∈ scanResult ∨ lookupOutcome ol id = some Outcome.success
  · have hb : (decide (id ∈ scanResult) ||
        decide (lookupOutcome ol id = some Outcome.success)) = true := by
      rcases hd with h | h <;> simp [h]
    rw [statusRecordFor, if_pos hb, specBuildRecord, if_pos hd]
  · have hb : (decide (id ∈ scanResult) ||
        decide (lookupOutcome ol id = some Outcome.success)) = false := by
      push_neg at hd
      simp [hd.1, hd.2]
    rw [statusRecordFor, if_neg (by simp [hb]), specBuildRecord, if_neg hd,
      errorMessageFor_flatten ol id hkeys hr]
    push_neg at hd
    cases hl : lookupOutcome ol id with
    | none => rfl
    | some o =>
        cases o with
        | success => exact absurd hl hd.2
        | failure r => rfl

/-- Closed instantiation of C4_report_matches_spec. -/
theorem C4_report_matches_spec_witness :
    statusRecordFor false
      (flattenFailures [("X3", Outcome.failure "Network error: refused")])
      "X3" =
    specBuildRecord []
      [("X3", Outcome.failure "Network error: refused")] "X3" :=
  C4_report_matches_spec [] [("X3", Outcome.failure "Network error: refused")]
    "X3" false (by decide)
    (by
      intro p hp r hpr
      rcases List.mem_cons.mp hp with hp | hp
      · subst hp
        injection hpr with h
        subst h
        decide
      · exact absurd hp (List.not_mem_nil p))
    (by decide)

/-- C3 (amended): on a successful fetch the worker performs exactly one
filesystem operation, a direct write of the response content to the final
path downloadDir/{index}.pdf; no temporary file and no rename. -/
theorem C3_direct_write (dir idx : String) (row : Row)
    (net : Cell → FetchResult) (content : String)
    (h : net (selectUrl row) = FetchResult.success content) :
    (download_file dir idx row net).fsOps =
      [FsOp.write (joinPath dir (idx ++ ".pdf")) content] ∧
    ((download_file dir idx row net).fsOps.any FsOp.isRename) = false := by
  simp [download_file, h, FsOp.isRename]

/-- Closed instantiation of C3_direct_write. -/
theorem C3_direct_write_witness :
    (download_file DOWNLOAD_DIR "X1" ⟨Cell.str "http://e/x1.pdf", Cell.na⟩
        (fun _ => FetchResult.success "PDFBYTES")).fsOps =
      [FsOp.write (joinPath DOWNLOAD_DIR ("X1" ++ ".pdf")) "PDFBYTES"] ∧
    ((download_file DOWNLOAD_DIR "X1" ⟨Cell.str "http://e/x1.pdf", Cell.na⟩
        (fun _ => FetchResult.success "PDFBYTES")).fsOps.any
      FsOp.isRename) = false :=
  C3_direct_write DOWNLOAD_DIR "X1" ⟨Cell.str "http://e/x1.pdf", Cell.na⟩
    (fun _ => FetchResult.success "PDFBYTES") "PDFBYTES" rfl

/-- C3 fails on the code: a successful fetch performs no rename at all and
writes directly under the final artifact name, so the persisted write is
not a temp-write-then-rename. -/
theorem C3_counterexample :
    (download_file DOWNLOAD_DIR "X1" ⟨Cell.str "http://e/x1.pdf", Cell.na⟩
        (fun _ => FetchResult.success "PDFBYTES")).success = true ∧
    (download_file DOWNLOAD_DIR "X1" ⟨Cell.str "http://e/x1.pdf", Cell.na⟩
        (fun _ => FetchResult.success "PDFBYTES")).fsOps =
      [FsOp.write "Data/Downloads/X1.pdf" "PDFBYTES"] ∧
    ((download_file DOWNLOAD_DIR "X1" ⟨Cell.str "http://e/x1.pdf", Cell.na⟩
        (fun _ => FetchResult.success "PDFBYTES")).fsOps.any
      FsOp.isRename) = false := by
  decide

lemma selectUrl_eq_find (row : Row)
    (h : (row.candidates).any Cell.notna = true) :
    row.candidates.find? Cell.notna = some (selectUrl row) := by
  cases hp : row.pdfUrl.notna
  · have hh : row.htmlUrl.notna = true := by
      simpa [Row.candidates, hp] using h
    simp [Row.candidates, List.find?, hp, hh, selectUrl]
  · simp [Row.candidates, List.find?, hp, selectUrl]

/-- C9 (amended): for a row with at least one non-null candidate, the
worker issues exactly one fetch attempt, against the first non-null
candidate in priority order, with timeout 30 and certificate verification
off, and performs no retries whatever the outcome. The presence test is
pd.notna only: an empty-string candidate counts as present. -/
theorem C9_single_attempt (dir idx : String) (row : Row)
    (net : Cell → FetchResult)
    (h : (row.candidates).any Cell.notna = true) :
    row.candidates.find? Cell.notna = some (selectUrl row) ∧
    (download_file dir idx row net).attempts =
      [⟨selectUrl row, 30, false⟩] := by
  refine ⟨selectUrl_eq_find row h, ?_⟩
  cases hn : net (selectUrl row) <;> simp [download_file, hn]

/-- Closed instantiation of C9_single_attempt. -/
theorem C9_single_attempt_witness :
    ((Row.mk Cell.na (Cell.str "http://e/f.pdf")).candidates.find?
        Cell.notna = some (selectUrl (Row.mk Cell.na (Cell.str "http://e/f.pdf")))) ∧
    (download_file DOWNLOAD_DIR "X2" (Row.mk Cell.na (Cell.str "http://e/f.pdf"))
        (fun _ => FetchResult.requestError "refused")).attempts =
      [⟨selectUrl (Row.mk Cell.na (Cell.str "http://e/f.pdf")), 30, false⟩] :=
  C9_single_attempt DOWNLOAD_DIR "X2"
    (Row.mk Cell.na (Cell.str "http://e/f.pdf"))
    (fun _ => FetchResult.requestError "refused") (by decide)

lemma statusRecordFor_brnum (b : Bool) (errs : List String) (i : String) :
    (statusRecordFor b errs i).brnum = i := by
  cases b <;> simp [statusRecordFor]

lemma buildOutputRows_map_brnum (ids : List String)
    (present : String → Bool) (errs : List String) :
    (buildOutputRows ids present errs).map StatusRecord.brnum = ids := by
  simp [buildOutputRows, List.map_map, Function.comp_def,
    statusRecordFor_brnum]

lemma count_filter_of_nodup_key {α κ : Type} [DecidableEq κ] (key : α → κ)
    {l : List α} (h : (l.map key).Nodup) {k : κ} (hk : k ∈ l.map key) :
    (l.filter (fun a => decide (key a = k))).length = 1 := by
  induction l with
  | nil => simp at hk
  | cons x xs ih =>
      rw [List.map_cons, List.nodup_cons] at h
      obtain ⟨hx, hnd⟩ := h
      rw [List.filter_cons]
      by_cases hxk : key x = k
      · rw [if_pos (by simp [hxk])]
        have hfe : xs.filter (fun a => decide (key a = k)) = [] := by
          rw [List.filter_eq_nil_iff]
          intro a ha
          simp only [decide_eq_true_eq]
          intro he
          exact hx (List.mem_map.mpr ⟨a, ha, he.trans hxk.symm⟩)
        simp [hfe]
      · rw [if_neg (by simp [hxk])]
        rw [List.map_cons] at hk
        have hk' : k ∈ xs.map key := by
          rcases List.mem_cons.mp hk with h | h
          · exact absurd h.symm hxk
          · exact h
        exact ih hnd hk'

lemma downloadQueue_not_existing {table : List (String × Row)}
    {existing : List String} {maxD : Nat} {p : String × Row}
    (hp : p ∈ downloadQueue table existing maxD) : p.1 ∉ existing := by
  have h1 : p ∈ (table.filter (fun p => hasValidUrl p.2)).filter
      (fun p => decide (p.1 ∉ existing)) := List.take_subset _ _ hp
  have h2 := (List.mem_filter.mp h1).2
  simpa using h2

/-- C1 (amended): every item of the dispatch queue (source rows with a
candidate URL, minus identifiers whose artifact already exists, capped at
max_downloads) appears in the run's merged status report exactly once, and
the report contains no duplicate identifiers; items whose artifact already
existed are excluded from the queue, so the run adds no record for them. -/
theorem C1_queue_items_reported_once (table : List (String × Row))
    (existing : List String) (maxD : Nat) (net : Cell → FetchResult)
    (prior : List StatusRecord) (id : String)
    (hid : id ∈ (downloadQueue table existing maxD).map Prod.fst) :
    ((runReportRows table existing maxD net prior).map
      StatusRecord.brnum).Nodup ∧
    ((runReportRows table existing maxD net prior).filter
      (fun r => decide (r.brnum = id))).length = 1 ∧
    id ∉ existing := by
  have hnd : ((runReportRows table existing maxD net prior).map
      StatusRecord.brnum).Nodup := nodup_map_key_dedupKeepLast _ _
  have hmem : id ∈ (runReportRows table existing maxD net prior).map
      StatusRecord.brnum := by
    rw [runReportRows, mergeReport, mem_map_key_dedupKeepLast,
      List.map_append]
    refine List.mem_append_right _ ?_
    rw [runNewReportRows]
    rw [buildOutputRows_map_brnum]
    exact hid
  refine ⟨hnd, count_filter_of_nodup_key StatusRecord.brnum hnd hmem, ?_⟩
  rcases List.mem_map.mp hid with ⟨p, hp, hp1⟩
  exact hp1 ▸ downloadQueue_not_existing hp

/-- Closed instantiation of C1_queue_items_reported_once. -/
theorem C1_queue_items_reported_once_witness :
    ((runReportRows [("X1", ⟨Cell.str "http://e/x1.pdf", Cell.na⟩)] []
        MAX_DOWNLOADS (fun _ => FetchResult.success "b") []).map
      StatusRecord.brnum).Nodup ∧
    ((runReportRows [("X1", ⟨Cell.str "http://e/x1.pdf", Cell.na⟩)] []
        MAX_DOWNLOADS (fun _ => FetchResult.success "b") []).filter
      (fun r => decide (r.brnum = "X1"))).length = 1 ∧
    "X1" ∉ ([] : List String) :=
  C1_queue_items_reported_once
    [("X1", ⟨Cell.str "http://e/x1.pdf", Cell.na⟩)] [] MAX_DOWNLOADS
    (fun _ => FetchResult.success "b") [] "X1" (by decide)

/-- C1 fails on the code as claimed: X4 is a considered item (its row has a
candidate URL), its artifact already exists before the run, yet the run's
status report is empty: it contains no record for X4 at all, instead of the
claimed (X4, Downloaded, ""). -/
theorem C1_counterexample :
    hasValidUrl ⟨Cell.str "http://e/x4.pdf", Cell.na⟩ = true ∧
    runReportRows [("X4", ⟨Cell.str "http://e/x4.pdf", Cell.na⟩)] ["X4"]
      MAX_DOWNLOADS (fun _ => FetchResult.requestError "never called") []
      = [] := by
  decide

lemma dreachable_invariant {limit : Int} {n : Nat} {s : DispatchState}
    (hlim : 1 ≤ limit) (h : DReachable limit ⟨n, 0, false⟩ s) :
    (s.begun = false → s.running = 0) ∧ (s.running : Int) ≤ limit := by
  induction h with
  | refl => exact ⟨fun _ => rfl, by simp; omega⟩
  | tail hr hs ih =>
      cases hs with
      | finish hrun =>
          refine ⟨fun hb => ?_, ?_⟩
          · have h0 := ih.1 hb
            omega
          · have h2 := ih.2
            simp only
            omega
      | start hp hg =>
          refine ⟨fun hb => by simp at hb, ?_⟩
          rcases hg with hb | hg
          · have h0 := ih.1 hb
            simp only
            omega
          · simp only
            omega

/-- C2: for every work queue and every positive concurrency limit, in
every state the dispatcher loop of download_pdfs can reach, the number of
simultaneously running download workers never exceeds the limit. -/
theorem C2_concurrency_bounded {limit : Int} {n : Nat} {s : DispatchState}
    (hlim : 1 ≤ limit) (h : DReachable limit ⟨n, 0, false⟩ s) :
    (s.running : Int) ≤ limit :=
  (dreachable_invariant hlim h).2

/-- Closed instantiation of C2_concurrency_bounded: limit 2, three queued
items, after two admissions both workers run and 2 ≤ 2. -/
theorem C2_concurrency_bounded_witness :
    (((⟨1, 2, true⟩ : DispatchState).running : Int)) ≤ 2 :=
  C2_concurrency_bounded (by norm_num)
    (DReachable.tail
      (DReachable.tail DReachable.refl
        (DStep.start ⟨3, 0, false⟩ (by norm_num) (Or.inl rfl)))
      (DStep.start ⟨2, 1, true⟩ (by norm_num) (Or.inr (by norm_num))))

/-- C5 fails on the code: there is no validation of the concurrency limit;
with limit 0 the dispatcher still starts the first queued download, so it
does not reject the configuration or abort before downloads are
attempted. -/
theorem C5_counterexample : DStep 0 ⟨1, 0, false⟩ ⟨0, 1, true⟩ :=
  DStep.start ⟨1, 0, false⟩ (by norm_num) (Or.inl rfl)

lemma dreachable_nonpos_invariant {limit : Int} {n : Nat}
    {s : DispatchState} (hlim : limit ≤ 0)
    (h : DReachable limit ⟨n, 0, false⟩ s) :
    (s.begun = false → s.pending = n) ∧ n ≤ s.pending + 1 := by
  induction h with
  | refl => exact ⟨fun _ => rfl, Nat.le_succ n⟩
  | tail hr hs ih =>
      cases hs with
      | finish hrun => exact ⟨fun hb => ih.1 hb, ih.2⟩
      | start hp hg =>
          refine ⟨fun hb => by simp at hb, ?_⟩
          rcases hg with hb | hg
          · have h0 := ih.1 hb
            simp only
            omega
          · exfalso
            have h0 : (0 : Int) ≤ (s.running : Int) := Int.natCast_nonneg _
            omega

/-- C5 (amended): the code never checks the concurrency limit; a limit of
zero or less is not rejected (the first item still starts, see the
counterexample for C5) and after that first start the wait loop condition
never becomes false again, so no further item is ever admitted: in every
reachable state at least n - 1 of the n queued items are still pending,
and with two or more items the dispatcher loop never finishes (it hangs
instead of aborting). -/
theorem C5_no_validation_hangs {limit : Int} {n : Nat} {s : DispatchState}
    (hlim : limit ≤ 0) (h : DReachable limit ⟨n, 0, false⟩ s) :
    n ≤ s.pending + 1 :=
  (dreachable_nonpos_invariant hlim h).2

/-- Closed instantiation of C5_no_validation_hangs: with limit 0 and two
queued items, after the only possible admission one item is forever
pending. -/
theorem C5_no_validation_hangs_witness :
    (2 : Nat) ≤ (⟨1, 1, true⟩ : DispatchState).pending + 1 :=
  C5_no_validation_hangs (le_refl 0)
    (DReachable.tail DReachable.refl
      (DStep.start ⟨2, 0, false⟩ (by norm_num) (Or.inl rfl)))

/-- C9 fails on the code: with Pdf_URL an empty string and a usable HTML
fallback, the first present (non-null, non-empty) candidate is the fallback
URL, but the worker attempts the empty string, because its presence test is
pd.notna alone. -/
theorem C9_counterexample :
    ((Row.mk (Cell.str "") (Cell.str "http://example.com/r.pdf")).candidates.find?
        specPresent = some (Cell.str "http://example.com/r.pdf")) ∧
    (download_file DOWNLOAD_DIR "X2"
        (Row.mk (Cell.str "") (Cell.str "http://example.com/r.pdf"))
        (fun _ => FetchResult.requestError "connection refused")).attempts =
      [⟨Cell.str "", 30, false⟩] ∧
    specPresent (Cell.str "") = false := by
  decide

end PDFDownloader
